import Mathlib

/-!
Shallow embedding of the NatsuLib string core (src/NatsuLib/natString.h) and
verification of its specification claims.

Modelling conventions:
* Code units are modelled as `Nat`, holding the unsigned value of the unit
  (`char` / `char16_t` / `char32_t` cast to their unsigned type).
* `size_t` arithmetic is modelled in `Nat`, with an explicit `% 2 ^ 64`
  wherever the C++ computation can wrap (`static_cast<size_t>` of a negative
  `ptrdiff_t`, the growth formula, size additions).
* `npos = size_t(-1)` is `2 ^ 64 - 1`.
* A `StringView` is a pair of pointers; where only the viewed contents matter
  we model it as the list of code units between the pointers, and where the
  pointer values themselves matter (`Slice`) we model the pointers as numeric
  addresses.
-/

namespace NatsuLib

/-- Value of `detail_::npos = size_t(-1)`. -/
def npos : Nat := 2 ^ 64 - 1

/-- Embedding of `StringView::ApplyOffset` (natString.h:596-606): converts a possibly
negative offset into a non-negative position.  The C++ computes in `size_t`:
`ret = static_cast<size_t>(offset); if (offset < 0) ret += size + 1;`,
so both the cast and the addition wrap modulo `2 ^ 64`. -/
def ApplyOffset (offset : Int) (size : Nat) : Nat :=
  (((offset.emod (2 ^ 64)) + if offset < 0 then (size : Int) + 1 else 0).emod (2 ^ 64)).toNat

/-- Assertion in `ApplyOffset`: `assert(ret <= size)`. -/
def ApplyOffsetAssert (offset : Int) (size : Nat) : Prop :=
  ApplyOffset offset size ≤ size

/-- Embedding of `StringView::Slice` (natString.h:462-466), at the level of the two
pointers a view holds.  Addresses are modelled as `Nat`.  The source reads
`return { m_StrBegin + ApplyOffset(begin, size), m_StrEnd + ApplyOffset(end, size) };`
— note that the second component is computed from `m_StrEnd`, the view's END
pointer. -/
def Slice (strBegin strEnd : Nat) (b e : Int) : Nat × Nat :=
  let size := strEnd - strBegin
  (strBegin + ApplyOffset b size, strEnd + ApplyOffset e size)

/-- Embedding of `StringView::Compare` (natString.h:439-460): walks both views while
neither is exhausted, returning `1` or `-1` at the first differing pair of
unsigned code units; when the loop ends (one view exhausted) it returns `0`
without comparing sizes. -/
def Compare (a b : List Nat) : Int :=
  match a, b with
  | [], _ => 0
  | _, [] => 0
  | x :: xs, y :: ys =>
      if x ≠ y then (if x > y then 1 else -1) else Compare xs ys

/-- Embedding of `StringView::operator==` (natString.h:370-378): size check, then
`Compare`. -/
def viewEq (a b : List Nat) : Bool :=
  if a.length ≠ b.length then false else decide (Compare a b = 0)

/-- Embedding of `StringView::operator<` (natString.h:390-393). -/
def viewLt (a b : List Nat) : Bool :=
  decide (Compare a b < 0)

/-- Embedding of `StringView::operator>` (natString.h:395-398). -/
def viewGt (a b : List Nat) : Bool :=
  decide (Compare a b > 0)

/-- Embedding of `StringView::operator<=` (natString.h:400-403). -/
def viewLe (a b : List Nat) : Bool :=
  decide (Compare a b ≤ 0)

/-- Embedding of `StringView::operator>=` (natString.h:405-408). -/
def viewGe (a b : List Nat) : Bool :=
  decide (Compare a b ≥ 0)

/-- Strict lexicographic order on code-unit sequences (the mathematical
order the spec refers to): `a` precedes `b` when at the first position where
they differ `a` has the smaller unit, or `a` is a strict prefix of `b`. -/
def lexLt (a b : List Nat) : Prop :=
  match a, b with
  | [], [] => False
  | [], _ :: _ => True
  | _ :: _, [] => False
  | x :: xs, y :: ys => x < y ∨ (x = y ∧ lexLt xs ys)

instance lexLt.dec : ∀ a b : List Nat, Decidable (lexLt a b)
  | [], [] => by unfold lexLt; exact inferInstance
  | [], _ :: _ => by unfold lexLt; exact inferInstance
  | _ :: _, [] => by unfold lexLt; exact inferInstance
  | x :: xs, y :: ys => by
      unfold lexLt
      have := lexLt.dec xs ys
      exact inferInstance

/-- Inner loop of `detail_::SearchCharRepeat` (natString.h:110-122): starting
from `matchLen = 1` (the unit at `cur` already matched), extends the run of
`searchChar` until either `matchLen` reaches `repeatCount` (full run) or the
unit at `cur + matchLen` differs.  Returns the final `matchLen`.  The last
argument is plain fuel: the loop makes at most `rep - matchLen` extensions,
so the call below with `gas = rep` never exhausts it. -/
def runLenFrom (s : List Nat) (c cur rep : Nat) : Nat → Nat → Nat
  | matchLen, 0 => matchLen
  | matchLen, gas + 1 =>
      if matchLen ≥ rep then matchLen
      else if s.getD (cur + matchLen) 0 ≠ c then matchLen
      else runLenFrom s c cur rep (matchLen + 1) gas

/-- Embedding of `detail_::SearchCharRepeat` (natString.h:87-127) over the window
`[cur, endIdx)` of `s`, with absolute indices.  Faithful points: the outer
scan returns `npos` when fewer than `repeatCount` units remain; on a full
run it returns `srcEnd - current` (the distance from the run start to the
END of the window); on a partial run of length `matchLen` it resumes the
scan at `current + matchLen + 1`.  `fuel` only bounds the outer loop (each
iteration strictly advances `cur`); `none` means fuel ran out and is never
produced when `fuel > endIdx - cur`. -/
def SearchCharRepeatAux (s : List Nat) (endIdx c rep : Nat) : Nat → Nat → Option Nat
  | 0, _ => none
  | fuel + 1, cur =>
      if endIdx - cur < rep then some npos
      else if s.getD cur 0 ≠ c then SearchCharRepeatAux s endIdx c rep fuel (cur + 1)
      else
        let ml := runLenFrom s c cur rep 1 rep
        if ml ≥ rep then some (endIdx - cur)
        else SearchCharRepeatAux s endIdx c rep fuel (cur + ml + 1)

/-- Embedding of `StringView::FindCharRepeat` (natString.h:537-555): resolves `nBegin`,
returns it for `repeatCount == 0`, guards the window, then forwards to
`SearchCharRepeat(cbegin() + realBegin, cend(), ...)` and adds `realBegin`
to a non-`npos` result. -/
def FindCharRepeat (s : List Nat) (findChar rep : Nat) (nBegin : Int) : Option Nat :=
  let length := s.length
  let realBegin := ApplyOffset nBegin length
  if rep = 0 then some realBegin
  else if length < rep ∨ realBegin + rep > length then some npos
  else
    match SearchCharRepeatAux s length findChar rep (length + 1) realBegin with
    | none => none
    | some pos => some (if pos = npos then npos else pos + realBegin)

/-- Embedding of `StringView::Find(CharType)` (natString.h:577-580): single-character
search is `FindCharRepeat` with `repeatCount = 1`. -/
def FindChar (s : List Nat) (findChar : Nat) (nBegin : Int) : Option Nat :=
  FindCharRepeat s findChar 1 nBegin

/-- Reference function for the claim: the smallest offset `p ≥ begin` (from
the view's beginning) at which a run of `rep` consecutive copies of `c`
starts, or `none` when no such run exists. -/
def firstRunStart (s : List Nat) (c rep b : Nat) : Option Nat :=
  (List.range (s.length + 1)).find?
    (fun p => decide (b ≤ p) && decide (p + rep ≤ s.length) &&
      (List.range rep).all (fun k => s.getD (p + k) 0 == c))

/-- First precondition assertion of `detail_::SearchCharRepeat`
(natString.h:90): `assert(repeatCount != 0)`. -/
def SearchCharRepeatAssertNonzero (rep : Nat) : Prop :=
  rep ≠ 0

/-- Second precondition assertion of `detail_::SearchCharRepeat`
(natString.h:91): `assert(static_cast<size_t>(srcEnd - srcBegin) > repeatCount)`
— the searched window must be STRICTLY longer than `repeatCount`. -/
def SearchCharRepeatAssertWindow (b endIdx rep : Nat) : Prop :=
  endIdx - b > rep

/-- The condition under which `StringView::FindCharRepeat`
(natString.h:537-555) reaches the call to `detail_::SearchCharRepeat`: the
`repeatCount == 0` early return is not taken and the range guard
`length < repeatCount || realBegin + repeatCount > length` passes. -/
def FindCharRepeatReachesHelper (length rep realBegin : Nat) : Prop :=
  ¬ rep = 0 ∧ ¬ (length < rep ∨ realBegin + rep > length)

/-- Constant `String::MaxShortStringSize` = `ArrayMaxSize` of the `StringStorage`
instantiation used by `String` (natString.h:809-813, 1133): the inline
array holds 31 code units. -/
def MaxShortStringSize : Nat := 31

/-- Embedding of `detail_::Grow` (natString.h:632-635):
`std::max(size + 1, (size + 1 + ((size + 1) >> 1) + 0x0F) & size_t(-0x10))`,
computed in `size_t`, so every intermediate wraps modulo `2 ^ 64`; the mask
with `-0x10` clears the low four bits. -/
def Grow (size : Nat) : Nat :=
  let a := (size + 1) % 2 ^ 64
  let x := (a + a / 2 + 15) % 2 ^ 64
  max a (x / 16 * 16)

/-- Embedding of `detail_::StringStorage` (natString.h:637-794).  `Size` and `Capacity`
are the two counters of the C++ struct; `content` is the sequence of code
units stored in the live buffer up to `Size` (the logical contents).  The
union discriminant is derived, exactly as in `GetData`: the representation
is the inline array iff `Capacity ≤ ArrayMaxSize = 31`, the heap pointer
iff `Capacity > 31`. -/
structure StringStorage where
  Size : Nat
  Capacity : Nat
  content : List Nat
  deriving DecidableEq

/-- A default-constructed storage (natString.h:640-643): size 0, capacity
`ArrayMaxSize`, inline. -/
def emptyStorage : StringStorage :=
  { Size := 0, Capacity := MaxShortStringSize, content := [] }

/-- Whether the storage's live representation is the inline array
(`GetData`, natString.h:722-730). -/
def isInline (s : StringStorage) : Bool :=
  decide (s.Capacity ≤ MaxShortStringSize)

/-- Embedding of `StringStorage::Reserve` (natString.h:737-768): returns unchanged when
`newCapacity ≤ Capacity`; allocates a fresh heap buffer, moves the contents
and updates `Capacity` when `newCapacity > ArrayMaxSize`; quirk of the
source: when `Capacity < newCapacity ≤ ArrayMaxSize` nothing happens (this
case is unreachable from a fresh storage, whose capacity starts at
`ArrayMaxSize`). -/
def Reserve (s : StringStorage) (newCapacity : Nat) : StringStorage :=
  if newCapacity ≤ s.Capacity then s
  else if newCapacity > MaxShortStringSize then { s with Capacity := newCapacity }
  else s

/-- The condition under which `Reserve` performs a heap allocation
(`new CharType[newCapacity]`, natString.h:748). -/
def ReserveAllocates (s : StringStorage) (newCapacity : Nat) : Bool :=
  decide (newCapacity > s.Capacity) && decide (newCapacity > MaxShortStringSize)

/-- Embedding of `StringStorage::Resize` (natString.h:770-785): grows the capacity via
`Reserve(Grow(newSize))` when `newSize >= max(ArrayMaxSize, Capacity)`,
zero-fills the units between the old and the new size, sets `Size` and
writes the terminator (the terminator slot lives beyond `content` in this
model). -/
def Resize (s : StringStorage) (newSize : Nat) : StringStorage :=
  let s1 := if newSize ≥ max MaxShortStringSize s.Capacity then Reserve s (Grow newSize) else s
  { s1 with
    Size := newSize
    content := s1.content.take newSize ++ List.replicate (newSize - s.Size) 0 }

/-- The condition under which a call to `Resize` reallocates the buffer
(reaches `Reserve` with an allocating capacity). -/
def ResizeReallocates (s : StringStorage) (newSize : Nat) : Bool :=
  decide (newSize ≥ max MaxShortStringSize s.Capacity) && ReserveAllocates s (Grow newSize)

/-- Embedding of `StringStorage::Assign(const CharType*, size_t)` (natString.h:693-697):
`Resize(length)` then `memmove` of `length` units from the source
pointer. -/
def AssignPtrLen (s : StringStorage) (str : List Nat) (length : Nat) : StringStorage :=
  let t := Resize s length
  { t with content := str.take length }

/-- Embedding of `StringStorage::Assign(StringStorage&&)` (natString.h:705-720).  When
`other.Capacity > OtherArrayMaxSize && other.Size > ArrayMaxSize` (the
source's representation is heap-backed AND the source's used length exceeds
the DESTINATION's inline threshold — both instantiations use 31 here) it
swaps the heap pointers and copies `Capacity` and `Size`: no allocation and
no element copy.  Otherwise it falls back to
`Assign(other.GetData(), other.Size)`.  The returned `Bool` is `true`
exactly when the pointer-transfer branch ran.  (The source object also
receives the destination's old pointer through the swap; the claim concerns
the destination, which is what we model.) -/
def MoveAssign (dst src : StringStorage) : StringStorage × Bool :=
  if src.Capacity > MaxShortStringSize ∧ src.Size > MaxShortStringSize then
    ({ dst with Capacity := src.Capacity, Size := src.Size, content := src.content }, true)
  else
    (AssignPtrLen dst src.content src.Size, false)

/-- The condition the claim states for the pointer transfer: BOTH sides'
current representation is heap-backed, and the source's used length exceeds
the destination's inline capacity threshold. -/
def claimedTransferCondition (dst src : StringStorage) : Prop :=
  src.Capacity > MaxShortStringSize ∧ dst.Capacity > MaxShortStringSize ∧
    src.Size > MaxShortStringSize

/-- One mutating operation on a `String` (natString.h:891-972), reduced to
its effect on the storage: `Resize(n)`; `Append(Char, count)` =
`std::fill_n(ResizeMore(count), count, Char)`; `Append(View)` =
`std::copy` of the view into `ResizeMore(view.size())` (view not aliasing
the string itself — the aliasing case is modelled separately below).
`ResizeMore(more)` resizes to `oldSize + moreSize` computed in `size_t`. -/
inductive StringOp where
  | resize (n : Nat)
  | appendChar (c count : Nat)
  | appendView (v : List Nat)
  deriving DecidableEq

/-- Effect of one `StringOp` on the storage. -/
def applyOp (s : StringStorage) (op : StringOp) : StringStorage :=
  match op with
  | .resize n => Resize s n
  | .appendChar c count =>
      let t := Resize s ((s.Size + count) % 2 ^ 64)
      { t with content := t.content.take s.Size ++ List.replicate (t.Size - s.Size) c }
  | .appendView v =>
      let t := Resize s ((s.Size + v.length) % 2 ^ 64)
      { t with content := t.content.take s.Size ++ v.take (t.Size - s.Size) }

/-- A `String` built by a sequence of `Append`/`Resize` calls starting from
the default-constructed (empty, inline) string. -/
def execOps (ops : List StringOp) : StringStorage :=
  ops.foldl applyOp emptyStorage

/-- Embedding of `String::Append(View)` (natString.h:952-960) called with a view of the
string's own current contents, `Append(GetView())`.  The code captures the
view (pointers into the live buffer), calls `ResizeMore(view.size())` and
then copies the view's units after the old contents.  When the embedded
`Resize` reallocates, the captured view points into the old buffer, which
has been freed (heap case) or partly overwritten through the union's
pointer member (inline case): the units the copy reads are unspecified,
modelled by the parameter `stale`.  Without a reallocation the view still
denotes the live buffer and the copy reads the original units. -/
def AppendSelfView (s : StringStorage) (stale : List Nat) : List Nat :=
  let doubled := (s.Size + s.Size) % 2 ^ 64
  let copied :=
    if ResizeReallocates s doubled then stale.take s.Size else s.content.take s.Size
  (Resize s doubled).content.take s.Size ++ copied

/-- Embedding of `StringView::Get` (natString.h:422-430): checked element access;
`nat_Throw(natException, "Pos is out of range.")` when `pos >= GetSize()`,
otherwise the unit at `pos`.  The exception channel is modelled as the
`Except.error` constructor carrying the message; the function is the only
way `Get` reports an error, and it does not mutate the view (the model is a
pure function of it). -/
def StringViewGet (v : List Nat) (pos : Nat) : Except String Nat :=
  if pos ≥ v.length then Except.error "Pos is out of range."
  else Except.ok (v.getD pos 0)

/-- Embedding of `String::Get` (natString.h:1031-1039):
`nat_Throw(natException, "index is out of range.")` when
`index >= m_Storage.Size`, otherwise the unit at `index` of the storage. -/
def StringGet (s : StringStorage) (index : Nat) : Except String Nat :=
  if index ≥ s.Size then Except.error "index is out of range."
  else Except.ok (s.content.getD index 0)

/-- Constant `detail_::MaxAllocaSize` (natString.h:70). -/
def MaxAllocaSize : Nat := 0x10000

/-- State of the failure-table construction loop in `detail_::MatchString`
(natString.h:159-187): position `pos`, candidate border length `cand`, and
the table contents. -/
structure KmpState where
  pos : Nat
  cand : Nat
  table : List Nat
  deriving DecidableEq

/-- One iteration of the failure-table loop (natString.h:165-185).  When
`pos` has reached `patternSize - 1` the loop has exited and the step is the
identity.  Otherwise: on `pattern[pos] == pattern[cand]`, increment `cand`
and store `pattern[pos + 1] == pattern[cand] ? table[cand - 1] : cand`,
advancing `pos`; on a mismatch with `cand == 0`, store `0` and advance; on
a mismatch with `cand != 0`, fall back to `cand = table[cand - 1]` and
retry the same `pos` (the `continue`). -/
def kmpStep (p : List Nat) (st : KmpState) : KmpState :=
  if st.pos + 1 ≥ p.length then st
  else if p.getD st.pos 0 = p.getD st.cand 0 then
    let cand := st.cand + 1
    let v := if p.getD (st.pos + 1) 0 = p.getD cand 0 then st.table.getD (cand - 1) 0 else cand
    { pos := st.pos + 1, cand := cand, table := st.table.set st.pos v }
  else if st.cand = 0 then
    { pos := st.pos + 1, cand := 0, table := st.table.set st.pos 0 }
  else
    { st with cand := st.table.getD (st.cand - 1) 0 }

/-- Initial state of the table construction: `table[0] = 0` (the remaining
`tableSize = patternSize - 1` entries start as an uninitialised buffer; the
loop writes every entry from index 1 on before it is read, so initialising
them to 0 does not change any observable value), `pos = 1`, `cand = 0`
(natString.h:161-165). -/
def kmpInit (p : List Nat) : KmpState :=
  { pos := 1, cand := 0, table := List.replicate (p.length - 1) 0 }

/-- The failure table `detail_::MatchString` builds for a pattern
(natString.h:137-187): `tableSize = patternSize - 1` entries; the loop body
runs only for `patternSize > 2`, and `2 * patternSize` iterations of
`kmpStep` always reach the loop's exit condition (proved below), after
which further steps are the identity.  Allocation of the table is assumed
to succeed (the heap-failure brute-force fallback of natString.h:222-226 is
outside the claims). -/
def buildTable (p : List Nat) : List Nat :=
  ((kmpStep p)^[2 * p.length] (kmpInit p)).table

/-- The matcher loop of `detail_::MatchString` (natString.h:189-236) as a
small-step machine.  `scan cur` is the first-character scan loop
(natString.h:192-202); `inner cur matchLen entered` is the comparison loop
(natString.h:204-220), where `entered = true` means control jumped to the
`Fallback` label (natString.h:213, 234), skipping the
`matchLen >= patternSize` exit test once. -/
inductive MSState where
  | scan (cur : Nat)
  | inner (cur matchLen : Nat) (entered : Bool)
  deriving DecidableEq

/-- One step of the matcher.  `read` is the source memory: the C++ reads
`current[matchLen]` without first checking `current + matchLen < srcEnd`,
so reads beyond `srcEnd` are possible and are answered by `read` (which is
why the model takes a total function rather than the window's list).
`Sum.inr` is a `return` from `MatchString`. -/
def msStep (read : Nat → Nat) (srcBegin srcEnd : Nat) (p table : List Nat) :
    MSState → MSState ⊕ Nat
  | .scan cur =>
      if srcEnd - cur < p.length then Sum.inr npos
      else if read cur = p.getD 0 0 then Sum.inl (.inner cur 1 false)
      else Sum.inl (.scan (cur + 1))
  | .inner cur matchLen entered =>
      if entered = false ∧ matchLen ≥ p.length then Sum.inr (cur - srcBegin)
      else if read (cur + matchLen) ≠ p.getD matchLen 0 then
        let cur2 := cur + matchLen
        let fb := table.getD (matchLen - 1) 0
        if fb ≠ 0 then Sum.inl (.inner (cur2 - fb) fb true)
        else Sum.inl (.scan cur2)
      else Sum.inl (.inner cur (matchLen + 1) false)

/-- Driver for the matcher machine; `fuel` bounds the number of steps,
`none` meaning it ran out. -/
def msRun (read : Nat → Nat) (srcBegin srcEnd : Nat) (p table : List Nat) :
    Nat → MSState → Option Nat
  | 0, _ => none
  | fuel + 1, st =>
      match msStep read srcBegin srcEnd p table st with
      | Sum.inr r => some r
      | Sum.inl st2 => msRun read srcBegin srcEnd p table fuel st2

/-- Embedding of `detail_::MatchString` (natString.h:129-237) over the window
`[srcBegin, srcEnd)`, reading memory through `read`. -/
def MatchString (read : Nat → Nat) (srcBegin srcEnd : Nat) (p : List Nat) (fuel : Nat) :
    Option Nat :=
  msRun read srcBegin srcEnd p (buildTable p) fuel (.scan srcBegin)

/-- Embedding of `StringView::Find(StringView, ptrdiff_t)` (natString.h:495-514) on the
view holding `s`; `beyond` is the memory that happens to lie after the
view's end (the code can read it, see `msStep`). -/
def Find (s beyond pattern : List Nat) (nBegin : Int) : Option Nat :=
  let length := s.length
  let realBegin := ApplyOffset nBegin length
  if pattern.length = 0 then some realBegin
  else if length < pattern.length ∨ realBegin + pattern.length > length then some npos
  else
    let read := fun i => (s ++ beyond).getD i 0
    match MatchString read realBegin length pattern ((length + 2) * (pattern.length + 2)) with
    | none => none
    | some pos => some (if pos = npos then npos else pos + realBegin)

/-- Reference search for claim C4: the smallest offset at or after `b` at
which `pattern` occurs in `s`, `npos` when it occurs nowhere. -/
def naiveFind (s pattern : List Nat) (b : Nat) : Nat :=
  match (List.range (s.length + 1)).find?
      (fun p0 => decide (b ≤ p0) && decide (p0 + pattern.length ≤ s.length) &&
        decide ((s.drop p0).take pattern.length = pattern)) with
  | some p0 => p0
  | none => npos

/-- Predicate: `b` is the length of a proper border of the length-`L` prefix of `p`:
`b < L`, and the first `b` units equal the last `b` units of that prefix
(stated pointwise). -/
def Bord (p : List Nat) (L b : Nat) : Prop :=
  b < L ∧ L ≤ p.length ∧ ∀ k, k < b → p.getD k 0 = p.getD (L - b + k) 0

/-- Decidable check for `Bord`. -/
def bordCheck (p : List Nat) (L b : Nat) : Bool :=
  decide (b < L) && decide (L ≤ p.length) &&
    (List.range b).all (fun k => p.getD k 0 == p.getD (L - b + k) 0)

/-- Length of the longest proper border of the length-`L` prefix of `p`
(0 when there is none). -/
def bordLen (p : List Nat) (L : Nat) : Nat :=
  ((List.range L).filter (fun b => bordCheck p L b)).foldl max 0

/-- The strong ("optimized") KMP failure value for table index `i` (prefix
`pattern[0..i]`, lookahead unit `pattern[i + 1]`): the longest proper
border length `b` of `pattern[0..i]`, except that when `pattern[i + 1]`
equals `pattern[b]` (so falling back to `b` would retry the very unit that
just mismatched) the value falls through to the strong value of the border
itself.  The `min ... i` only serves the termination argument: a proper
border of a length-`(i + 1)` prefix has length at most `i`, so it never
truncates. -/
def strongFail (p : List Nat) : Nat → Nat
  | i =>
      let b := min (bordLen p (i + 1)) i
      if b = 0 then 0
      else if p.getD (i + 1) 0 = p.getD b 0 then strongFail p (b - 1)
      else b
termination_by i => i
decreasing_by
  have hb : min (bordLen p (i + 1)) i ≤ i := Nat.min_le_right _ _
  omega

/-- Invariant of the failure-table loop, at the top of each iteration:
`pos` is in range; `cand` is a proper-border length of the length-`pos`
prefix; every longer proper border of that prefix has already been ruled
out for extension by `pattern[pos]`; the table holds the strong failure
values strictly below `pos` and has its full `patternSize - 1` length. -/
def KmpInv (p : List Nat) (st : KmpState) : Prop :=
  1 ≤ st.pos ∧ st.pos + 1 ≤ p.length ∧
  Bord p st.pos st.cand ∧
  (∀ b, Bord p st.pos b → b > st.cand → p.getD b 0 ≠ p.getD st.pos 0) ∧
  st.table.length = p.length - 1 ∧
  (∀ i, i < st.pos → st.table.getD i 0 = strongFail p i)

/-- The storage's structural invariant: the capacity strictly exceeds the
size (a slot is reserved for the terminator) and never falls below the
inline array's `ArrayMaxSize` (a fresh storage starts there and `Reserve`
never shrinks). -/
def StorageInv (s : StringStorage) : Prop :=
  s.Size < s.Capacity ∧ MaxShortStringSize ≤ s.Capacity

/-! Theorems about the embedded operations follow. -/

lemma compare_cons_same (x : Nat) (xs ys : List Nat) :
    Compare (x :: xs) (x :: ys) = Compare xs ys := by
  simp [Compare]

lemma compare_cons_ne {x y : Nat} (hxy : x ≠ y) (xs ys : List Nat) :
    Compare (x :: xs) (y :: ys) = if x > y then 1 else -1 := by
  simp [Compare, hxy]

lemma compare_eq_zero_iff (a b : List Nat) :
    Compare a b = 0 ↔ (a <+: b ∨ b <+: a) := by
  induction a generalizing b with
  | nil =>
      simp [Compare, List.nil_prefix]
  | cons x xs ih =>
      cases b with
      | nil => simp [Compare, List.nil_prefix]
      | cons y ys =>
          by_cases hxy : x = y
          · subst hxy
            rw [compare_cons_same, ih ys]
            simp [List.cons_prefix_cons]
          · have h1 : ¬ (x :: xs <+: y :: ys) := by
              intro h; exact hxy (List.cons_prefix_cons.mp h).1
            have h2 : ¬ (y :: ys <+: x :: xs) := by
              intro h; exact hxy ((List.cons_prefix_cons.mp h).1).symm
            rw [compare_cons_ne hxy]
            simp only [h1, h2, or_self, iff_false]
            split <;> omega

lemma compare_neg_iff (a b : List Nat) :
    Compare a b < 0 ↔ (lexLt a b ∧ ¬ a <+: b) := by
  induction a generalizing b with
  | nil =>
      cases b <;> simp [Compare, lexLt, List.nil_prefix]
  | cons x xs ih =>
      cases b with
      | nil => simp [Compare, lexLt]
      | cons y ys =>
          by_cases hxy : x = y
          · subst hxy
            rw [compare_cons_same, ih ys]
            simp [lexLt, List.cons_prefix_cons]
          · have h1 : ¬ (x :: xs <+: y :: ys) := by
              intro h; exact hxy (List.cons_prefix_cons.mp h).1
            rw [compare_cons_ne hxy]
            simp only [lexLt, hxy, false_and, or_false, h1, not_false_eq_true, and_true]
            split <;> omega

lemma compare_pos_iff (a b : List Nat) :
    Compare a b > 0 ↔ (lexLt b a ∧ ¬ b <+: a) := by
  induction a generalizing b with
  | nil =>
      cases b <;> simp [Compare, lexLt, List.nil_prefix]
  | cons x xs ih =>
      cases b with
      | nil => simp [Compare, lexLt]
      | cons y ys =>
          by_cases hxy : x = y
          · subst hxy
            rw [compare_cons_same, ih ys]
            simp [lexLt, List.cons_prefix_cons]
          · have h1 : ¬ (y :: ys <+: x :: xs) := by
              intro h; exact hxy ((List.cons_prefix_cons.mp h).1).symm
            rw [compare_cons_ne hxy]
            have hyx : ¬ y = x := fun h => hxy h.symm
            simp only [lexLt, hyx, false_and, or_false, h1, not_false_eq_true, and_true]
            split <;> omega

/-- Claim C1 (code bug, failing input): for the six-unit source with the
view's pointers at addresses 0 and 6, `Slice(-3, -1)` resolves the offsets to
positions 4 and 6 but, because the second component of the result is built
from `m_StrEnd` instead of `m_StrBegin`, returns the pointer pair `(4, 12)`
— a window extending six units past the end of the source — instead of the
pair `(4, 6)` that would denote the code units of positions 4 and 6 from the
view's beginning (the substring of positions 4 and 5). -/
theorem claim_C1_slice_failing_input :
    Slice 0 6 (-3) (-1) = (4, 12) ∧
    ApplyOffset (-3) 6 = 4 ∧ ApplyOffset (-1) 6 = 6 ∧
    Slice 0 6 (-3) (-1) ≠ (4, 6) := by
  refine ⟨?_, ?_, ?_, ?_⟩ <;> decide

/-- Claim C3 (counterexample): `Compare` applied to the view holding unit 97
and the view holding units 97, 98 returns `0` although the two are not equal
sequences, and does not return a negative value although the first is a
strict prefix of the second — refuting both of the claim's "exactly when"
clauses for this input. -/
theorem claim_C3_counterexample :
    Compare [97] [97, 98] = 0 ∧
    ([97] : List Nat) ≠ [97, 98] ∧
    ¬ Compare [97] [97, 98] < 0 := by
  refine ⟨?_, ?_, ?_⟩ <;> decide

/-- Claim C3 (amended): `Compare(a, b)` walks the two views over their common
prefix and returns a negative value exactly when `a` precedes `b`
lexicographically at some differing unit (not merely by being shorter), a
positive value exactly when `a` follows `b` at some differing unit, and zero
exactly when one view is a prefix of the other — so two views one of which
is a strict prefix of the other compare EQUAL, not less.  The derived
operators are `Compare` against zero by definition, and `==` nevertheless
agrees with sequence equality thanks to its separate size pre-check. -/
theorem claim_C3_compare_characterization (a b : List Nat) :
    (Compare a b = 0 ↔ (a <+: b ∨ b <+: a)) ∧
    (Compare a b < 0 ↔ (lexLt a b ∧ ¬ a <+: b)) ∧
    (Compare a b > 0 ↔ (lexLt b a ∧ ¬ b <+: a)) ∧
    (viewEq a b = true ↔ a = b) ∧
    (viewLt a b = true ↔ Compare a b < 0) ∧
    (viewGt a b = true ↔ Compare a b > 0) ∧
    (viewLe a b = true ↔ Compare a b ≤ 0) ∧
    (viewGe a b = true ↔ Compare a b ≥ 0) := by
  refine ⟨compare_eq_zero_iff a b, compare_neg_iff a b, compare_pos_iff a b, ?_, ?_, ?_, ?_, ?_⟩
  · constructor
    · intro h
      unfold viewEq at h
      split at h
      · exact absurd h (by simp)
      · have hlen : a.length = b.length := by omega
        have h0 : Compare a b = 0 := of_decide_eq_true h
        rcases (compare_eq_zero_iff a b).mp h0 with hp | hp
        · exact hp.eq_of_length hlen
        · exact (hp.eq_of_length hlen.symm).symm
    · rintro rfl
      unfold viewEq
      simp [(compare_eq_zero_iff a a).mpr (Or.inl (List.prefix_refl a))]
  · simp [viewLt]
  · simp [viewGt]
  · simp [viewLe]
  · simp [viewGe]

/-- Claim C2 (code bug, failing input): in the two-unit view holding units
98, 97 the first (and only) run of one copy of unit 98 starts at offset 0,
but `FindCharRepeat(98, 1, 0)` — and therefore single-character `Find(98)` —
returns 2, because `SearchCharRepeat` reports a match as `srcEnd - current`
(distance to the window's end) instead of `current - srcBegin` (offset from
its beginning); 2 is not even a valid offset in the view. -/
theorem claim_C2_findCharRepeat_failing_input :
    FindCharRepeat [98, 97] 98 1 0 = some 2 ∧
    FindChar [98, 97] 98 0 = some 2 ∧
    firstRunStart [98, 97] 98 1 0 = some 0 ∧
    (2 : Nat) ≠ 0 := by
  refine ⟨?_, ?_, ?_, ?_⟩ <;> decide

/-- Sanity check of the matcher embedding against the spec's own examples:
searching for AABA (65 65 66 65) in AABAACAADAABAABA returns offset 0, and
searching for XYZ (88 89 90) in the same source returns `npos`. -/
lemma find_spec_examples :
    Find [65, 65, 66, 65, 65, 67, 65, 65, 68, 65, 65, 66, 65, 65, 66, 65] []
      [65, 65, 66, 65] 0 = some 0 ∧
    Find [65, 65, 66, 65, 65, 67, 65, 65, 68, 65, 65, 66, 65, 65, 66, 65] []
      [88, 89, 90] 0 = some npos := by
  refine ⟨?_, ?_⟩ <;> decide

/-- Claim C4 (code bug, failing input): searching for the pattern 97 97 98
in the three-unit view 97 97 97 must return `npos` (the reference search
does), but after the mismatch at the third unit the matcher falls back via
the failure table and resumes comparing WITHOUT re-checking that the
pattern still fits in the window, so it reads the code unit at index 3 —
one past the view's end.  When that adjacent memory holds 98 the code
returns offset 1, a "match" that does not fit inside the view; when it
holds 0 the code happens to return `npos`.  The result thus depends on
memory outside the view and disagrees with the reference search. -/
theorem claim_C4_find_failing_input :
    Find [97, 97, 97] [98] [97, 97, 98] 0 = some 1 ∧
    Find [97, 97, 97] [0] [97, 97, 98] 0 = some npos ∧
    naiveFind [97, 97, 97] [97, 97, 98] 0 = npos ∧
    (1 : Nat) ≠ npos := by
  refine ⟨?_, ?_, ?_, ?_⟩ <;> decide

/-- Claim C5 (code bug, failing input): a string of 16 units built by
`Append(97, 16)` has size 16 in the inline buffer (capacity 31).
Self-appending doubles the size to 32, which makes the embedded
`Resize(32)` reallocate (`Grow(32) = 64 > 31`) — so the view captured at
the start of `Append(GetView())` dangles over the old buffer while the copy
runs, and the appended half is whatever the stale memory holds (here
modelled as units 98), not a second copy of the contents.  The claim's
"doubles it correctly for every size" fails at every size that forces a
reallocation. -/
theorem claim_C5_self_append_corrupted :
    ResizeReallocates (execOps [StringOp.appendChar 97 16]) 32 = true ∧
    AppendSelfView (execOps [StringOp.appendChar 97 16]) (List.replicate 16 98) =
      List.replicate 16 97 ++ List.replicate 16 98 ∧
    AppendSelfView (execOps [StringOp.appendChar 97 16]) (List.replicate 16 98) ≠
      (execOps [StringOp.appendChar 97 16]).content ++
        (execOps [StringOp.appendChar 97 16]).content := by
  refine ⟨?_, ?_, ?_⟩ <;> decide

/-- Claim C6 (counterexample): the single operation `Resize(31)` never
takes the size beyond 31, yet the resulting storage is heap-backed with
capacity 48 (`Resize` grows as soon as `newSize >= ArrayMaxSize = 31`,
because the inline array's 31 slots must also hold the terminator) —
refuting "inline iff the size has never exceeded the inline capacity
constant 31". -/
theorem claim_C6_counterexample :
    isInline (execOps [StringOp.resize 31]) = false ∧
    (execOps [StringOp.resize 31]).Capacity = 48 ∧
    (execOps ([] : List StringOp)).Size ≤ 31 ∧
    (execOps [StringOp.resize 31]).Size ≤ 31 := by
  refine ⟨?_, ?_, ?_, ?_⟩ <;> decide

/-- Claim C7 (counterexample): move-assigning a heap-backed storage of size
32 (capacity 64, obtained by `Resize(32)` from fresh) into a
default-constructed destination takes the pointer-transfer branch even
though the destination's representation is inline — the code never
examines the destination's representation, refuting the claim's "exactly
when BOTH sides' current representation is heap-backed". -/
theorem claim_C7_counterexample :
    (MoveAssign emptyStorage (Resize emptyStorage 32)).2 = true ∧
    ¬ claimedTransferCondition emptyStorage (Resize emptyStorage 32) :=
  ⟨by decide, fun h => absurd h.2.1 (by decide)⟩

/-- Claim C7 (amended): `StringStorage`'s move-assignment transfers the
source's heap buffer (no allocation, no element copy — the branch flag)
exactly when the SOURCE's representation is heap-backed and the source's
used length exceeds the destination's inline capacity threshold; the
destination's own representation plays no role.  In every case the
destination ends with the source's size and contents. -/
theorem claim_C7_move_assign_characterization (dst src : StringStorage)
    (hlen : src.content.length = src.Size) :
    ((MoveAssign dst src).2 = true ↔
      (src.Capacity > MaxShortStringSize ∧ src.Size > MaxShortStringSize)) ∧
    (MoveAssign dst src).1.Size = src.Size ∧
    (MoveAssign dst src).1.content = src.content := by
  unfold MoveAssign
  split
  · rename_i h
    refine ⟨by simp [h], rfl, rfl⟩
  · rename_i h
    refine ⟨by simp [h], rfl, ?_⟩
    show src.content.take src.Size = src.content
    rw [← hlen, List.take_length]

/-- Witness for `claim_C7_move_assign_characterization` at
`dst = src = emptyStorage` (the copy branch). -/
theorem claim_C7_witness :
    (MoveAssign emptyStorage emptyStorage).1.Size = emptyStorage.Size ∧
    (MoveAssign emptyStorage emptyStorage).1.content = emptyStorage.content :=
  ⟨(claim_C7_move_assign_characterization emptyStorage emptyStorage rfl).2.1,
   (claim_C7_move_assign_characterization emptyStorage emptyStorage rfl).2.2⟩

/-- Claim C9 (confirmed): the checked accessors `StringView::Get` and
`String::Get` raise the out-of-range error, carrying their descriptive
message, exactly when the index is not below the size; for an in-range
index they return the code unit at that index and raise nothing.  The
`Except.error` constructor is the only error outcome either function can
produce, and both are pure functions of the object (the object is left
unchanged). -/
theorem claim_C9_checked_get (v : List Nat) (pos : Nat) (s : StringStorage) (index : Nat) :
    (pos < v.length → StringViewGet v pos = Except.ok (v.getD pos 0)) ∧
    (v.length ≤ pos → StringViewGet v pos = Except.error "Pos is out of range.") ∧
    (index < s.Size → StringGet s index = Except.ok (s.content.getD index 0)) ∧
    (s.Size ≤ index → StringGet s index = Except.error "index is out of range.") := by
  unfold StringViewGet StringGet
  refine ⟨fun h => ?_, fun h => ?_, fun h => ?_, fun h => ?_⟩
  · rw [if_neg (by omega)]
  · rw [if_pos (by omega)]
  · rw [if_neg (by omega)]
  · rw [if_pos (by omega)]

/-- Witness for `claim_C9_checked_get`: both accessors evaluated in range
and out of range on concrete data. -/
theorem claim_C9_witness :
    StringViewGet [5, 7] 1 = Except.ok 7 ∧
    StringViewGet [5, 7] 2 = Except.error "Pos is out of range." ∧
    StringGet { Size := 1, Capacity := 31, content := [9] } 0 = Except.ok 9 ∧
    StringGet { Size := 1, Capacity := 31, content := [9] } 3 =
      Except.error "index is out of range." :=
  ⟨(claim_C9_checked_get [5, 7] 1 ⟨1, 31, [9]⟩ 0).1 (by decide),
   (claim_C9_checked_get [5, 7] 2 ⟨1, 31, [9]⟩ 0).2.1 (by decide),
   (claim_C9_checked_get [5, 7] 1 ⟨1, 31, [9]⟩ 0).2.2.1 (by decide),
   (claim_C9_checked_get [5, 7] 1 ⟨1, 31, [9]⟩ 3).2.2.2 (by decide)⟩

/-- Claim C8 (counterexample): for the pattern 97 97 97 the code's failure
table is `[0, 0]`, but the longest proper border of the two-unit prefix
97 97 (table index 1) has length 1 — the lookahead optimisation stores the
fallback's fallback instead of the border length, refuting
"table[i] equals the length of the longest proper border of
pattern[0..i]". -/
theorem claim_C8_counterexample :
    buildTable [97, 97, 97] = [0, 0] ∧
    bordLen [97, 97, 97] 2 = 1 ∧
    (buildTable [97, 97, 97]).getD 1 0 ≠ bordLen [97, 97, 97] 2 := by
  refine ⟨?_, ?_, ?_⟩ <;> decide

/-- Claim C10 (code bug, failing input): searching for one copy of a
character in a one-unit view (`length = 1`, `repeatCount = 1`, resolved
begin 0) passes `FindCharRepeat`'s own range guard, so the helper is called
with a window whose length exactly equals `repeatCount` — and the helper's
precondition `assert(srcEnd - srcBegin > repeatCount)` is then violated,
contradicting the claim that the assertions hold whenever the guards pass. -/
theorem claim_C10_assert_violated_at_equal_window :
    FindCharRepeatReachesHelper 1 1 0 ∧
    SearchCharRepeatAssertNonzero 1 ∧
    ¬ SearchCharRepeatAssertWindow 0 1 1 := by
  unfold FindCharRepeatReachesHelper SearchCharRepeatAssertNonzero SearchCharRepeatAssertWindow
  omega

lemma grow_ge (n : Nat) (h : n + 1 < 2 ^ 64) : n + 1 ≤ Grow n := by
  unfold Grow
  have ha : (n + 1) % 2 ^ 64 = n + 1 := Nat.mod_eq_of_lt h
  simp only [ha]
  exact Nat.le_max_left _ _

lemma resize_Size (s : StringStorage) (n : Nat) : (Resize s n).Size = n := rfl

lemma resize_Capacity_grow (s : StringStorage) (n : Nat)
    (h : n ≥ max MaxShortStringSize s.Capacity) (h2 : ¬ Grow n ≤ s.Capacity)
    (h3 : Grow n > MaxShortStringSize) : (Resize s n).Capacity = Grow n := by
  unfold Resize Reserve
  rw [if_pos h, if_neg h2, if_pos h3]

lemma resize_Capacity_small (s : StringStorage) (n : Nat)
    (h : ¬ n ≥ max MaxShortStringSize s.Capacity) : (Resize s n).Capacity = s.Capacity := by
  unfold Resize
  rw [if_neg h]

lemma resize_inv (s : StringStorage) (n : Nat) (hs : StorageInv s) (hn : n ≤ 2 ^ 62) :
    StorageInv (Resize s n) ∧
    ((Resize s n).Capacity ≤ MaxShortStringSize ↔
      (s.Capacity ≤ MaxShortStringSize ∧ n ≤ 30)) := by
  obtain ⟨hlt, hge⟩ := hs
  have hg : n + 1 ≤ Grow n := grow_ge n (by unfold MaxShortStringSize at hge; omega)
  have hSz := resize_Size s n
  unfold StorageInv MaxShortStringSize
  unfold MaxShortStringSize at hge
  by_cases hcond : n ≥ max 31 s.Capacity
  · have hgc : ¬ Grow n ≤ s.Capacity := by omega
    have hg31 : Grow n > MaxShortStringSize := by unfold MaxShortStringSize; omega
    have hCap := resize_Capacity_grow s n (by unfold MaxShortStringSize; omega) hgc hg31
    unfold MaxShortStringSize at hg31
    rw [hCap, hSz]
    refine ⟨⟨by omega, by omega⟩, ?_⟩
    constructor
    · intro h; omega
    · intro h; omega
  · have hCap := resize_Capacity_small s n (by unfold MaxShortStringSize; omega)
    rw [hCap, hSz]
    refine ⟨⟨by omega, by omega⟩, ?_⟩
    constructor
    · intro h; exact ⟨h, by omega⟩
    · intro h; exact h.1

lemma applyOp_Size_Capacity (s : StringStorage) (op : StringOp) :
    ∃ n, applyOp s op = { Resize s n with content := (applyOp s op).content } ∧
      (applyOp s op).Size = n := by
  cases op with
  | resize n => exact ⟨n, rfl, rfl⟩
  | appendChar c count => exact ⟨(s.Size + count) % 2 ^ 64, rfl, rfl⟩
  | appendView v => exact ⟨(s.Size + v.length) % 2 ^ 64, rfl, rfl⟩

lemma applyOp_inv (s : StringStorage) (op : StringOp) (hs : StorageInv s)
    (hb : (applyOp s op).Size ≤ 2 ^ 62) :
    StorageInv (applyOp s op) ∧
    ((applyOp s op).Capacity ≤ MaxShortStringSize ↔
      (s.Capacity ≤ MaxShortStringSize ∧ (applyOp s op).Size ≤ 30)) := by
  obtain ⟨n, heq, hSize⟩ := applyOp_Size_Capacity s op
  have hn : n ≤ 2 ^ 62 := by rw [hSize] at hb; exact hb
  have h := resize_inv s n hs hn
  have hCap : (applyOp s op).Capacity = (Resize s n).Capacity := by rw [heq]
  have hSz : (applyOp s op).Size = (Resize s n).Size := by rw [heq]
  constructor
  · exact ⟨by rw [show (applyOp s op).Size < (applyOp s op).Capacity ↔
        (Resize s n).Size < (Resize s n).Capacity by rw [hCap, hSz]]; exact h.1.1,
      by rw [hCap]; exact h.1.2⟩
  · rw [hCap, hSize, show n = (Resize s n).Size from rfl]
    exact h.2

lemma foldl_storage_inv (ops : List StringOp) : ∀ (s : StringStorage), StorageInv s →
    (∀ pre, pre <+: ops → (List.foldl applyOp s pre).Size ≤ 2 ^ 62) →
    StorageInv (List.foldl applyOp s ops) ∧
    ((List.foldl applyOp s ops).Capacity ≤ MaxShortStringSize ↔
      (s.Capacity ≤ MaxShortStringSize ∧
        ∀ pre, pre <+: ops → pre ≠ [] → (List.foldl applyOp s pre).Size ≤ 30)) := by
  induction ops with
  | nil =>
      intro s hs _
      refine ⟨by simpa using hs, ?_⟩
      simp only [List.foldl_nil]
      constructor
      · intro h
        refine ⟨h, fun pre hpre hne => absurd (List.prefix_nil.mp hpre) hne⟩
      · exact fun h => h.1
  | cons op rest ih =>
      intro s hs hbound
      have hb1 : (applyOp s op).Size ≤ 2 ^ 62 := by
        have := hbound [op] (by simp)
        simpa using this
      have hop := applyOp_inv s op hs hb1
      have hbound2 : ∀ pre, pre <+: rest →
          (List.foldl applyOp (applyOp s op) pre).Size ≤ 2 ^ 62 := by
        intro pre hpre
        have := hbound (op :: pre) (List.cons_prefix_cons.mpr ⟨rfl, hpre⟩)
        simpa using this
      have hrest := ih (applyOp s op) hop.1 hbound2
      simp only [List.foldl_cons]
      refine ⟨hrest.1, ?_⟩
      rw [hrest.2, hop.2]
      constructor
      · rintro ⟨⟨hcap, hsz⟩, hall⟩
        refine ⟨hcap, ?_⟩
        intro pre hpre hne
        cases pre with
        | nil => exact absurd rfl hne
        | cons a tl =>
            obtain ⟨rfl, htl⟩ := List.cons_prefix_cons.mp hpre
            simp only [List.foldl_cons]
            cases tl with
            | nil => simpa using hsz
            | cons b tl2 => exact hall (b :: tl2) htl (by simp)
      · rintro ⟨hcap, hall⟩
        have hsz : (applyOp s op).Size ≤ 30 := by
          have := hall [op] (List.cons_prefix_cons.mpr ⟨rfl, List.nil_prefix⟩) (by simp)
          simpa using this
        refine ⟨⟨hcap, hsz⟩, ?_⟩
        intro pre hpre hne
        have := hall (op :: pre) (List.cons_prefix_cons.mpr ⟨rfl, hpre⟩) (by simp)
        simpa using this

/-- Claim C6 (amended): after any sequence of `Append`/`Resize` calls whose
sizes stay below `2 ^ 62` (far from `size_t` overflow), the storage
invariant `capacity > size` holds — one slot always reserved for the zero
terminator — and the representation is inline (no heap buffer was ever
allocated; the capacity never left `ArrayMaxSize = 31`) if and only if the
string's size never exceeded 30.  The inline array's 31 slots must also
hold the terminator, so a string that merely REACHES size
31 = `MaxShortStringSize` already switches to the heap, which is what the
counterexample exhibits against the claimed threshold of 31. -/
theorem claim_C6_growth_invariant_amended (ops : List StringOp)
    (hbound : ∀ pre, pre <+: ops → (execOps pre).Size ≤ 2 ^ 62) :
    (execOps ops).Size < (execOps ops).Capacity ∧
    (isInline (execOps ops) = true ↔
      ∀ pre, pre <+: ops → (execOps pre).Size ≤ 30) := by
  have h0 : StorageInv emptyStorage := ⟨by decide, by decide⟩
  have h := foldl_storage_inv ops emptyStorage h0 (fun pre hpre => hbound pre hpre)
  refine ⟨h.1.1, ?_⟩
  unfold isInline execOps
  rw [decide_eq_true_iff, h.2]
  constructor
  · rintro ⟨_, hall⟩
    intro pre hpre
    cases pre with
    | nil => exact by decide
    | cons a tl => exact hall (a :: tl) hpre (by simp)
  · intro hall
    exact ⟨by decide, fun pre hpre _ => hall pre hpre⟩

/-- Witness for `claim_C6_growth_invariant_amended` on the one-operation
sequence `Append(97, 5)`. -/
theorem claim_C6_witness :
    (execOps [StringOp.appendChar 97 5]).Size <
      (execOps [StringOp.appendChar 97 5]).Capacity :=
  (claim_C6_growth_invariant_amended [StringOp.appendChar 97 5]
    (by
      intro pre hpre
      cases pre with
      | nil => decide
      | cons a tl =>
          obtain ⟨rfl, htl⟩ := List.cons_prefix_cons.mp hpre
          rw [List.prefix_nil.mp htl]
          decide)).1

/-! Border theory for the failure-table claim. -/

lemma getD_set_self (l : List Nat) (n a d : Nat) (h : n < l.length) :
    (l.set n a).getD n d = a := by
  simp [List.getD_eq_getElem?_getD, List.getElem?_set_self, h]

lemma getD_set_ne (l : List Nat) (n i a d : Nat) (h : n ≠ i) :
    (l.set n a).getD i d = l.getD i d := by
  simp [List.getD_eq_getElem?_getD, List.getElem?_set_ne, h]

lemma getD_replicate_zero (n i : Nat) : (List.replicate n (0 : Nat)).getD i 0 = 0 := by
  simp [List.getD_eq_getElem?_getD]

lemma foldl_max_ge_init (l : List Nat) (a : Nat) : a ≤ l.foldl max a := by
  induction l generalizing a with
  | nil => simp
  | cons x xs ih => exact le_trans (Nat.le_max_left a x) (ih (max a x))

lemma le_foldl_max (l : List Nat) (a x : Nat) (h : x ∈ l) : x ≤ l.foldl max a := by
  induction l generalizing a with
  | nil => cases h
  | cons y ys ih =>
      rcases List.mem_cons.mp h with rfl | hmem
      · exact le_trans (Nat.le_max_right a x) (foldl_max_ge_init ys (max a x))
      · exact ih (max a y) hmem

lemma foldl_max_cases (l : List Nat) (a : Nat) : l.foldl max a = a ∨ l.foldl max a ∈ l := by
  induction l generalizing a with
  | nil => exact Or.inl rfl
  | cons x xs ih =>
      rcases ih (max a x) with h | h
      · rcases max_choice a x with hm | hm
        · exact Or.inl (by rw [List.foldl_cons, h, hm])
        · exact Or.inr (by rw [List.foldl_cons, h, hm]; exact List.mem_cons_self x xs)
      · exact Or.inr (List.mem_cons_of_mem x h)

lemma bordCheck_iff (p : List Nat) (L b : Nat) : bordCheck p L b = true ↔ Bord p L b := by
  unfold bordCheck Bord
  simp only [List.all_eq_true, List.mem_range, Bool.and_eq_true, decide_eq_true_iff,
    beq_iff_eq, List.getD_eq_getElem?_getD]
  tauto

lemma bord_zero (p : List Nat) (L : Nat) (h1 : 0 < L) (h2 : L ≤ p.length) : Bord p L 0 :=
  ⟨h1, h2, fun k hk => absurd hk (Nat.not_lt_zero k)⟩

lemma bordLen_isBord (p : List Nat) (L : Nat) (h1 : 0 < L) (h2 : L ≤ p.length) :
    Bord p L (bordLen p L) := by
  unfold bordLen
  rcases foldl_max_cases ((List.range L).filter (fun b => bordCheck p L b)) 0 with h | h
  · rw [h]; exact bord_zero p L h1 h2
  · exact (bordCheck_iff p L _).mp (List.of_mem_filter h)

lemma bordLen_ge (p : List Nat) (L b : Nat) (h : Bord p L b) : b ≤ bordLen p L := by
  unfold bordLen
  refine le_foldl_max _ 0 b (List.mem_filter.mpr ⟨List.mem_range.mpr h.1, ?_⟩)
  exact (bordCheck_iff p L b).mpr h

lemma bordLen_lt (p : List Nat) (L : Nat) (h1 : 0 < L) (h2 : L ≤ p.length) :
    bordLen p L < L :=
  (bordLen_isBord p L h1 h2).1

lemma bord_trans (p : List Nat) (L b2 b1 : Nat) (h2 : Bord p L b2) (h1 : Bord p b2 b1) :
    Bord p L b1 := by
  obtain ⟨hb2L, hLlen, hs2⟩ := h2
  obtain ⟨hb1b2, _, hs1⟩ := h1
  refine ⟨by omega, hLlen, fun k hk => ?_⟩
  have e1 := hs1 k hk
  have e2 := hs2 (b2 - b1 + k) (by omega)
  have hidx : L - b2 + (b2 - b1 + k) = L - b1 + k := by omega
  rw [e1, e2, hidx]

lemma bord_shrink (p : List Nat) (L b1 b2 : Nat) (h1 : Bord p L b1) (h2 : Bord p L b2)
    (hlt : b1 < b2) : Bord p b2 b1 := by
  obtain ⟨hb1L, hLlen, hs1⟩ := h1
  obtain ⟨hb2L, _, hs2⟩ := h2
  refine ⟨hlt, by omega, fun k hk => ?_⟩
  have e1 := hs1 k hk
  have e2 := hs2 (b2 - b1 + k) (by omega)
  have hidx : L - b2 + (b2 - b1 + k) = L - b1 + k := by omega
  rw [e1, ← hidx, ← e2]

lemma bord_ext (p : List Nat) (L b : Nat) :
    Bord p (L + 1) (b + 1) ↔ (Bord p L b ∧ L < p.length ∧ p.getD b 0 = p.getD L 0) := by
  constructor
  · rintro ⟨hlt, hlen, hs⟩
    refine ⟨⟨by omega, by omega, fun k hk => ?_⟩, by omega, ?_⟩
    · have := hs k (by omega)
      have hidx : L + 1 - (b + 1) + k = L - b + k := by omega
      rw [hidx] at this
      exact this
    · have := hs b (by omega)
      have hidx : L + 1 - (b + 1) + b = L := by omega
      rw [hidx] at this
      exact this
  · rintro ⟨⟨hlt, hlen, hs⟩, hL, hb⟩
    refine ⟨by omega, by omega, fun k hk => ?_⟩
    by_cases hkb : k < b
    · have := hs k hkb
      have hidx : L + 1 - (b + 1) + k = L - b + k := by omega
      rw [hidx, this]
    · have hkeq : k = b := by omega
      subst hkeq
      have hidx : L + 1 - (k + 1) + k = L := by omega
      rw [hidx, hb]

lemma min_bordLen (p : List Nat) (i : Nat) (h : i + 1 ≤ p.length) :
    min (bordLen p (i + 1)) i = bordLen p (i + 1) := by
  have := bordLen_lt p (i + 1) (by omega) h
  omega

lemma strongFail_unfold (p : List Nat) (i : Nat) :
    strongFail p i =
      (let b := min (bordLen p (i + 1)) i
       if b = 0 then 0
       else if p.getD (i + 1) 0 = p.getD b 0 then strongFail p (b - 1)
       else b) := by
  rw [strongFail]

lemma strongFail_le (p : List Nat) : ∀ i, i + 1 ≤ p.length →
    strongFail p i ≤ bordLen p (i + 1) := by
  intro i
  induction i using Nat.strong_induction_on with
  | _ i ih =>
      intro h
      rw [strongFail_unfold, min_bordLen p i h]
      set B := bordLen p (i + 1) with hB
      have hBlt : B < i + 1 := bordLen_lt p (i + 1) (by omega) h
      by_cases h0 : B = 0
      · simp [h0]
      · rw [if_neg h0]
        by_cases hlook : p.getD (i + 1) 0 = p.getD B 0
        · rw [if_pos hlook]
          have := ih (B - 1) (by omega) (by omega)
          have hbb : bordLen p (B - 1 + 1) ≤ B - 1 := by
            have := bordLen_lt p (B - 1 + 1) (by omega) (by omega)
            omega
          omega
        · rw [if_neg hlook]

lemma strongFail_bord (p : List Nat) : ∀ i, i + 1 ≤ p.length →
    strongFail p i = 0 ∨ Bord p (i + 1) (strongFail p i) := by
  intro i
  induction i using Nat.strong_induction_on with
  | _ i ih =>
      intro h
      rw [strongFail_unfold, min_bordLen p i h]
      set B := bordLen p (i + 1) with hB
      have hBlt : B < i + 1 := bordLen_lt p (i + 1) (by omega) h
      by_cases h0 : B = 0
      · simp [h0]
      · rw [if_neg h0]
        have hBbord : Bord p (i + 1) B := bordLen_isBord p (i + 1) (by omega) h
        by_cases hlook : p.getD (i + 1) 0 = p.getD B 0
        · rw [if_pos hlook]
          rcases ih (B - 1) (by omega) (by omega) with hz | hbord
          · exact Or.inl hz
          · right
            have hb1 : B - 1 + 1 = B := by omega
            rw [hb1] at hbord
            exact bord_trans p (i + 1) B _ hBbord hbord
        · rw [if_neg hlook]
          exact Or.inr hBbord

lemma strongFail_skip (p : List Nat) : ∀ i b, i + 1 ≤ p.length →
    Bord p (i + 1) b → strongFail p i < b → p.getD b 0 = p.getD (i + 1) 0 := by
  intro i
  induction i using Nat.strong_induction_on with
  | _ i ih =>
      intro b h hbord hgt
      rw [strongFail_unfold, min_bordLen p i h] at hgt
      set B := bordLen p (i + 1) with hB
      have hBlt : B < i + 1 := bordLen_lt p (i + 1) (by omega) h
      have hble : b ≤ B := bordLen_ge p (i + 1) b hbord
      by_cases h0 : B = 0
      · omega
      · rw [if_neg h0] at hgt
        have hBbord : Bord p (i + 1) B := bordLen_isBord p (i + 1) (by omega) h
        by_cases hlook : p.getD (i + 1) 0 = p.getD B 0
        · rw [if_pos hlook] at hgt
          by_cases hbB : b = B
          · rw [hbB]; exact hlook.symm
          · have hblt : b < B := by omega
            have hbordB : Bord p B b := bord_shrink p (i + 1) b B hbord hBbord hblt
            have hb1 : B - 1 + 1 = B := by omega
            have := ih (B - 1) (by omega) b (by omega) (by rw [hb1]; exact hbordB)
              (by exact hgt)
            rw [hb1] at this
            rw [this, hlook]
        · rw [if_neg hlook] at hgt
          omega

lemma bordLen_match (p : List Nat) (pos cand : Nat) (hpos : pos + 1 < p.length)
    (hbord : Bord p pos cand)
    (hruled : ∀ b, Bord p pos b → b > cand → p.getD b 0 ≠ p.getD pos 0)
    (hmatch : p.getD pos 0 = p.getD cand 0) :
    bordLen p (pos + 1) = cand + 1 := by
  have h1 : Bord p (pos + 1) (cand + 1) :=
    (bord_ext p pos cand).mpr ⟨hbord, by omega, hmatch.symm⟩
  have hge : cand + 1 ≤ bordLen p (pos + 1) := bordLen_ge p _ _ h1
  by_contra hne
  have hgt : cand + 1 < bordLen p (pos + 1) := by omega
  have hb := bordLen_isBord p (pos + 1) (by omega) (by omega)
  have hBeq : bordLen p (pos + 1) = (bordLen p (pos + 1) - 1) + 1 := by omega
  rw [hBeq] at hb
  have hext := (bord_ext p pos _).mp hb
  exact hruled (bordLen p (pos + 1) - 1) hext.1 (by omega) hext.2.2

lemma bordLen_mismatch_zero (p : List Nat) (pos : Nat) (hpos : pos + 1 < p.length)
    (hruled : ∀ b, Bord p pos b → b > 0 → p.getD b 0 ≠ p.getD pos 0)
    (hmm : ¬ p.getD pos 0 = p.getD 0 0) :
    bordLen p (pos + 1) = 0 := by
  by_contra hne
  have hb := bordLen_isBord p (pos + 1) (by omega) (by omega)
  have hBeq : bordLen p (pos + 1) = (bordLen p (pos + 1) - 1) + 1 := by omega
  rw [hBeq] at hb
  have hext := (bord_ext p pos _).mp hb
  by_cases hz : bordLen p (pos + 1) - 1 = 0
  · rw [hz] at hext
    exact hmm hext.2.2.symm
  · exact hruled (bordLen p (pos + 1) - 1) hext.1 (by omega) hext.2.2

lemma strongFail_match (p : List Nat) (pos cand : Nat) (hpos : pos + 1 < p.length)
    (hbord : Bord p pos cand)
    (hruled : ∀ b, Bord p pos b → b > cand → p.getD b 0 ≠ p.getD pos 0)
    (hmatch : p.getD pos 0 = p.getD cand 0) :
    strongFail p pos =
      (if p.getD (pos + 1) 0 = p.getD (cand + 1) 0 then strongFail p cand else cand + 1) := by
  have hB := bordLen_match p pos cand hpos hbord hruled hmatch
  rw [strongFail_unfold, min_bordLen p pos (by omega), hB]
  rw [if_neg (by omega : ¬ cand + 1 = 0)]
  simp only [Nat.add_sub_cancel]

lemma strongFail_mismatch_zero (p : List Nat) (pos : Nat) (hpos : pos + 1 < p.length)
    (hruled : ∀ b, Bord p pos b → b > 0 → p.getD b 0 ≠ p.getD pos 0)
    (hmm : ¬ p.getD pos 0 = p.getD 0 0) :
    strongFail p pos = 0 := by
  have hB := bordLen_mismatch_zero p pos hpos hruled hmm
  rw [strongFail_unfold, min_bordLen p pos (by omega), hB]
  simp

lemma kmpStep_done (p : List Nat) (st : KmpState) (h : st.pos + 1 ≥ p.length) :
    kmpStep p st = st := by
  unfold kmpStep
  rw [if_pos h]

lemma kmpInv_step (p : List Nat) (st : KmpState) (h : KmpInv p st) :
    KmpInv p (kmpStep p st) := by
  obtain ⟨h1, h2, h3, h4, h5, h6⟩ := h
  unfold kmpStep
  by_cases hdone : st.pos + 1 ≥ p.length
  · rw [if_pos hdone]
    exact ⟨h1, h2, h3, h4, h5, h6⟩
  · rw [if_neg hdone]
    have hactive : st.pos + 1 < p.length := by omega
    have hcandlt : st.cand < st.pos := h3.1
    by_cases hmatch : p.getD st.pos 0 = p.getD st.cand 0
    · rw [if_pos hmatch]
      have hB := bordLen_match p st.pos st.cand hactive h3 h4 hmatch
      have hsf := strongFail_match p st.pos st.cand hactive h3 h4 hmatch
      have hposlen : st.pos < st.table.length := by omega
      unfold KmpInv
      dsimp only
      refine ⟨by omega, by omega, ?_, ?_, ?_, ?_⟩
      · exact (bord_ext p st.pos st.cand).mpr ⟨h3, by omega, hmatch.symm⟩
      · intro b hb hgt
        have := bordLen_ge p (st.pos + 1) b hb
        omega
      · simp only [List.length_set]
        exact h5
      · intro i hi
        by_cases hieq : i = st.pos
        · subst hieq
          rw [getD_set_self _ _ _ _ hposlen, hsf]
          simp only [Nat.add_sub_cancel]
          rw [h6 st.cand (by omega)]
        · rw [getD_set_ne _ _ _ _ _ (fun he => hieq he.symm)]
          exact h6 i (by omega)
    · rw [if_neg hmatch]
      by_cases hc0 : st.cand = 0
      · rw [if_pos hc0]
        rw [hc0] at hmatch
        have hruled0 : ∀ b, Bord p st.pos b → b > 0 → p.getD b 0 ≠ p.getD st.pos 0 := by
          intro b hb hgt
          exact h4 b hb (by omega)
        have hB := bordLen_mismatch_zero p st.pos hactive hruled0 hmatch
        have hsf := strongFail_mismatch_zero p st.pos hactive hruled0 hmatch
        have hposlen : st.pos < st.table.length := by omega
        unfold KmpInv
        dsimp only
        refine ⟨by omega, by omega, ?_, ?_, ?_, ?_⟩
        · exact bord_zero p (st.pos + 1) (by omega) (by omega)
        · intro b hb hgt
          have := bordLen_ge p (st.pos + 1) b hb
          omega
        · simp only [List.length_set]
          exact h5
        · intro i hi
          by_cases hieq : i = st.pos
          · subst hieq
            rw [getD_set_self _ _ _ _ hposlen, hsf]
          · rw [getD_set_ne _ _ _ _ _ (fun he => hieq he.symm)]
            exact h6 i (by omega)
      · rw [if_neg hc0]
        have hcand1 : st.cand - 1 + 1 = st.cand := by omega
        have hc2 : st.table.getD (st.cand - 1) 0 = strongFail p (st.cand - 1) :=
          h6 (st.cand - 1) (by omega)
        unfold KmpInv
        dsimp only
        refine ⟨h1, h2, ?_, ?_, h5, h6⟩
        · rw [hc2]
          rcases strongFail_bord p (st.cand - 1) (by omega) with hz | hbord
          · rw [hz]
            exact bord_zero p st.pos (by omega) (by omega)
          · rw [hcand1] at hbord
            exact bord_trans p st.pos st.cand _ h3 hbord
        · intro b hb hgt
          rw [hc2] at hgt
          by_cases hbc : b > st.cand
          · exact h4 b hb hbc
          · by_cases hbe : b = st.cand
            · rw [hbe]
              exact fun he => hmatch he.symm
            · have hblt : b < st.cand := by omega
              have hbordc : Bord p st.cand b := bord_shrink p st.pos b st.cand hb h3 hblt
              have hskip := strongFail_skip p (st.cand - 1) b (by omega)
                (by rw [hcand1]; exact hbordc) hgt
              rw [hcand1] at hskip
              rw [hskip]
              exact fun he => hmatch he.symm

lemma kmpInv_iterate (p : List Nat) (st : KmpState) (k : Nat) (h : KmpInv p st) :
    KmpInv p ((kmpStep p)^[k] st) := by
  induction k generalizing st with
  | zero => exact h
  | succ k ih =>
      rw [Function.iterate_succ_apply]
      exact ih (kmpStep p st) (kmpInv_step p st h)

lemma iterate_done_stable (p : List Nat) (st : KmpState) (k : Nat)
    (h : st.pos + 1 ≥ p.length) : (kmpStep p)^[k] st = st := by
  induction k with
  | zero => rfl
  | succ k ih => rw [Function.iterate_succ_apply, kmpStep_done p st h, ih]

lemma kmpStep_potential (p : List Nat) (st : KmpState) (h : KmpInv p st)
    (hactive : st.pos + 1 < p.length) :
    2 * st.pos - st.cand + 1 ≤ 2 * (kmpStep p st).pos - (kmpStep p st).cand := by
  obtain ⟨h1, h2, h3, h4, h5, h6⟩ := h
  have hcandlt : st.cand < st.pos := h3.1
  unfold kmpStep
  rw [if_neg (by omega : ¬ st.pos + 1 ≥ p.length)]
  by_cases hmatch : p.getD st.pos 0 = p.getD st.cand 0
  · rw [if_pos hmatch]
    dsimp only
    omega
  · rw [if_neg hmatch]
    by_cases hc0 : st.cand = 0
    · rw [if_pos hc0]
      dsimp only
      omega
    · rw [if_neg hc0]
      dsimp only
      have hcand1 : st.cand - 1 + 1 = st.cand := by omega
      have hc2 : st.table.getD (st.cand - 1) 0 = strongFail p (st.cand - 1) :=
        h6 (st.cand - 1) (by omega)
      have hle : strongFail p (st.cand - 1) ≤ bordLen p (st.cand - 1 + 1) :=
        strongFail_le p (st.cand - 1) (by omega)
      have hlt : bordLen p (st.cand - 1 + 1) < st.cand - 1 + 1 :=
        bordLen_lt p (st.cand - 1 + 1) (by omega) (by omega)
      rw [hc2]
      omega

lemma iterate_progress (p : List Nat) : ∀ (k : Nat) (st : KmpState), KmpInv p st →
    ((kmpStep p)^[k] st).pos + 1 ≥ p.length ∨
      2 * st.pos - st.cand + k ≤
        2 * ((kmpStep p)^[k] st).pos - ((kmpStep p)^[k] st).cand := by
  intro k
  induction k with
  | zero =>
      intro st _
      right
      simp only [Function.iterate_zero_apply]
      omega
  | succ k ih =>
      intro st hinv
      by_cases hdone : st.pos + 1 ≥ p.length
      · rw [iterate_done_stable p st (k + 1) hdone]
        exact Or.inl hdone
      · rw [Function.iterate_succ_apply]
        have hstep := kmpStep_potential p st hinv (by omega)
        rcases ih (kmpStep p st) (kmpInv_step p st hinv) with h | h
        · exact Or.inl h
        · right; omega

lemma iterate_reaches_done (p : List Nat) (st : KmpState) (h : KmpInv p st) :
    ((kmpStep p)^[2 * p.length] st).pos + 1 ≥ p.length := by
  rcases iterate_progress p (2 * p.length) st h with hd | hpot
  · exact hd
  · have hfin := kmpInv_iterate p st (2 * p.length) h
    obtain ⟨_, hple, _, _, _, _⟩ := hfin
    omega

lemma kmpInv_init (p : List Nat) (hm : 2 ≤ p.length) : KmpInv p (kmpInit p) := by
  unfold KmpInv kmpInit
  dsimp only
  refine ⟨le_refl 1, hm, bord_zero p 1 (by omega) (by omega), ?_, ?_, ?_⟩
  · intro b hb hgt
    have := hb.1
    omega
  · simp
  · intro i hi
    have hieq : i = 0 := by omega
    subst hieq
    rw [getD_replicate_zero, strongFail_unfold]
    simp

/-- Claim C8 (amended): for every pattern of length `m >= 1` the failure
table built by the substring-search engine has `m - 1` entries, built in a
linear number of steps (the loop exits within `2 * m` iterations of its
step function, after which the step is the identity), and entry `i` holds
the STRONG failure value for `pattern[0..i]`: the length `b` of the longest
proper border of `pattern[0..i]`, except that when `pattern[i + 1]` equals
`pattern[b]` the entry instead holds the strong value of the border itself
(recursively), because falling back to `b` would re-compare the very unit
that just mismatched.  For patterns such as 97 97 97 this differs from the
plain border length, which is what the counterexample exhibits. -/
theorem claim_C8_failure_table_amended (p : List Nat) (hp : 1 ≤ p.length) :
    (buildTable p).length = p.length - 1 ∧
    (∀ i, i < p.length - 1 → (buildTable p).getD i 0 = strongFail p i) ∧
    kmpStep p ((kmpStep p)^[2 * p.length] (kmpInit p)) =
      (kmpStep p)^[2 * p.length] (kmpInit p) := by
  by_cases hm : 2 ≤ p.length
  · have hinv := kmpInv_iterate p (kmpInit p) (2 * p.length) (kmpInv_init p hm)
    have hdone := iterate_reaches_done p (kmpInit p) (kmpInv_init p hm)
    obtain ⟨_, hple, _, _, hlen, hentries⟩ := hinv
    have hposeq : ((kmpStep p)^[2 * p.length] (kmpInit p)).pos = p.length - 1 := by omega
    refine ⟨hlen, ?_, kmpStep_done p _ hdone⟩
    intro i hi
    exact hentries i (by omega)
  · have hm1 : p.length = 1 := by omega
    have hd : (kmpInit p).pos + 1 ≥ p.length := by simp [kmpInit]; omega
    have hstable := iterate_done_stable p (kmpInit p) (2 * p.length) hd
    refine ⟨?_, ?_, ?_⟩
    · unfold buildTable
      rw [hstable]
      simp [kmpInit]
    · intro i hi
      omega
    · rw [hstable, kmpStep_done p _ hd]

/-- Witness for `claim_C8_failure_table_amended` at the concrete pattern
97 97 98. -/
theorem claim_C8_witness :
    (buildTable [97, 97, 98]).length = ([97, 97, 98] : List Nat).length - 1 :=
  (claim_C8_failure_table_amended [97, 97, 98] (by decide)).1

end NatsuLib
